import Mathlib

/-!
Shallow embedding of `src/main.rs` of the download-organiser repository.

The program watches a directory via inotify and applies ordered,
regex-driven rules to files: move (with duplicate resolution), unzip,
or delete.  The embedding below mirrors the source:

* `is_gteq` embeds `SizeMatcher::is_gteq` (lines 64-93): the regex
  `^(?P<size>\d+)(?P<units>\w{0,2}$)` is embedded as `sizeCaptures`
  (maximal ASCII digit run, then at most two word characters up to the
  end of the string; this decomposition is exactly the regex's first
  greedy match, and a string matches the regex iff this decomposition
  succeeds).  Rust's `str::parse::<u64>` on a non-empty decimal-digit
  string fails only on overflow, embedded as `parseU64`.  The `u64`
  multiplication `size * 2u64.pow(10)` wraps modulo 2^64 in release
  builds, embedded as `% u64Mod`.  The regex crate's `\d`/`\w` are
  Unicode-aware; the embedding restricts to ASCII, which covers every
  unit spelling in the source's match arms (non-ASCII inputs error
  out under both readings).
* Filesystem state is an oracle (`FS`); effects are a trace of `Op`
  values, mirroring the `std::fs` calls the source makes.
* `processEvent` embeds `Organiser::process_event` (lines 124-237),
  `runEvents` embeds the loop of `Organiser::run` (lines 112-119).
* Paths are lists of components.  `PathBuf::join` of the relative
  component lists used by the source is list append.
-/

namespace DownloadOrganiser

/-! ## Size matcher (`SizeMatcher`, main.rs lines 53-94) -/

/-- `\w` of the size regex, restricted to ASCII (see the header note). -/
def isWordChar (c : Char) : Bool := c.isAlphanum || c = '_'

/-- The capture groups of `^(?P<size>\d+)(?P<units>\w{0,2}$)` on a string:
`some (size, units)` when the regex matches, `none` otherwise.  The match
splits the string at its maximal leading digit run; the remainder must be
at most two word characters reaching the end of the string. -/
def sizeCaptures (comparison : String) : Option (String × String) :=
  let cs := comparison.toList
  let ds := cs.takeWhile Char.isDigit
  let rest := cs.dropWhile Char.isDigit
  if ds.isEmpty then none
  else if rest.length ≤ 2 && rest.all isWordChar then
    some (ds.asString, rest.asString)
  else none

/-- Value of a decimal digit string. -/
def digitsToNat (s : String) : Nat :=
  s.toList.foldl (fun acc c => acc * 10 + (c.toNat - 48)) 0

/-- `2^64`, the modulus of Rust's `u64` arithmetic. -/
def u64Mod : Nat := 2 ^ 64

/-- `str::parse::<u64>` on a non-empty decimal digit string: fails exactly
when the value does not fit in 64 bits. -/
def parseU64 (s : String) : Option Nat :=
  let n := digitsToNat s
  if n < u64Mod then some n else none

/-- The unit match of `is_gteq` (main.rs lines 83-90): the literal match
arms of the source, `none` for the `v @ _` error arm. -/
def unitMultiplier (units : String) : Option Nat :=
  match units with
  | "" | "b" | "B" => some 1
  | "k" | "kb" | "Kb" | "KB" => some (2 ^ 10)
  | "m" | "mb" | "Mb" | "MB" => some (2 ^ 20)
  | "g" | "gb" | "Gb" | "GB" => some (2 ^ 20)
  | "t" | "tb" | "Tb" | "TB" => some (2 ^ 20)
  | _ => none

/-- The source text of the size regex, used in the error message of
main.rs line 80. -/
def sizeRegexStr : String := "^(?P<size>\\d+)(?P<units>\\w\x7b0,2\x7d$)"

/-- `SizeMatcher::is_gteq` (main.rs lines 64-93).  Returns whether
`file_size` strictly exceeds the resolved threshold; errors mirror the
source's error returns.  The multiplication wraps modulo 2^64 as Rust
release-build `u64` multiplication does. -/
def is_gteq (file_size : Nat) (comparison : String) : Except String Bool :=
  match sizeCaptures comparison with
  | none =>
    Except.error ("size comparison string [" ++ comparison ++
      "] is not valid for regex [" ++ sizeRegexStr ++ "]")
  | some (rawSize, units) =>
    match parseU64 rawSize with
    | none => Except.error "number too large to fit in target type"
    | some size =>
      match unitMultiplier units with
      | none => Except.error ("unknown unit specification " ++ units)
      | some mult => Except.ok (decide (size * mult % u64Mod < file_size))

/-- The threshold-resolution part of `is_gteq`, extracted so that
properties of the gate can be stated against the resolved byte count.
Identical to `is_gteq` except that it returns the threshold instead of
comparing it. -/
def resolveThreshold (comparison : String) : Except String Nat :=
  match sizeCaptures comparison with
  | none =>
    Except.error ("size comparison string [" ++ comparison ++
      "] is not valid for regex [" ++ sizeRegexStr ++ "]")
  | some (rawSize, units) =>
    match parseU64 rawSize with
    | none => Except.error "number too large to fit in target type"
    | some size =>
      match unitMultiplier units with
      | none => Except.error ("unknown unit specification " ++ units)
      | some mult => Except.ok (size * mult % u64Mod)

/-! ## Paths and filesystem effects -/

/-- A path component, as produced by `std::path::Path::components` on a
Unix path (the Windows `Prefix` component does not arise here). -/
inductive PathComp where
  | normal (s : String)
  | parentDir
  | curDir
  | rootDir
deriving DecidableEq, Repr

/-- A raw (unresolved) path: what the program hands to `std::fs` calls.
It may still contain `..` and `.` components. -/
abbrev RPath := List PathComp

/-- A path made of plain named components. -/
def strPath (l : List String) : RPath := l.map PathComp.normal

/-- One filesystem effect performed by the program.  `copyData p` is the
`io::copy` of decompressed archive bytes into the file at `p`. -/
inductive Op where
  | rename (src dst : RPath)
  | removeFile (p : RPath)
  | createDirAll (p : RPath)
  | createFile (p : RPath)
  | copyData (p : RPath)
  | setPerms (p : RPath) (mode : Nat)
deriving DecidableEq, Repr

/-- The path an operation writes at (for `rename`, the destination). -/
def Op.path : Op → RPath
  | .rename _ dst => dst
  | .removeFile p => p
  | .createDirAll p => p
  | .createFile p => p
  | .copyData p => p
  | .setPerms p _ => p

/-- A zip archive entry as the source consumes it: its stored path split
into components, whether its raw name ends with `/` (the directory test
of main.rs line 194), and its recorded Unix permission bits. -/
structure ZipEntry where
  comps : List PathComp
  isDir : Bool
  unixMode : Option Nat
deriving DecidableEq, Repr

/-- The filesystem as an oracle: existence and size queries, archive
opening (`File::open` + `ZipArchive::new`; `none` is an open or parse
failure), and per-operation success of the effectful `std::fs` calls. -/
structure FS where
  pathExists : RPath → Bool
  metadataLen : RPath → Option Nat
  openZip : RPath → Option (List ZipEntry)
  opOk : Op → Bool

/-- Attempt one filesystem operation: it enters the trace, and the
oracle decides whether it succeeds. -/
def step (fs : FS) (o : Op) : List Op × Option String :=
  ([o], if fs.opOk o then none else some "io error")

/-- Sequence two traced computations: the second runs only when the
first did not error (Rust's `?` operator). -/
def seqM (a b : List Op × Option String) : List Op × Option String :=
  match a with
  | (ops, none) => (ops ++ b.1, b.2)
  | (ops, some e) => (ops, some e)

/-! ## Archive extraction (`Action::Unzip` branch, main.rs lines 172-222) -/

/-- The escape check of the zip crate's `ZipFile::enclosed_name`,
walking the entry's components with a depth counter: absolute paths are
rejected, `..` decrements the depth and rejects the path when it would
go below zero.

Modelled from the spec: the `zip` crate is an external dependency whose
source is not part of this repository; the spec requires "rejecting
(skipping, not failing) any entry whose resolved path would escape dest
via traversal segments", which is exactly this depth check. -/
def enclosedCheck (depth : Nat) : List PathComp → Bool
  | [] => true
  | .normal _ :: rest => enclosedCheck (depth + 1) rest
  | .curDir :: rest => enclosedCheck depth rest
  | .parentDir :: rest =>
    if depth = 0 then false else enclosedCheck (depth - 1) rest
  | .rootDir :: _ => false

/-- `ZipFile::enclosed_name`: the entry's stored path unchanged when the
escape check passes, `none` otherwise (see `enclosedCheck`). -/
def enclosedName (comps : List PathComp) : Option (List PathComp) :=
  if enclosedCheck 0 comps then some comps else none

/-- Resolve a raw path against the filesystem root, the way the kernel
resolves the paths the program hands to `std::fs`: `.` is dropped, `..`
removes the last resolved component (resolution fails above the root),
an absolute component restarts from the root. -/
def resolveComps (acc : List String) : List PathComp → Option (List String)
  | [] => some acc
  | .normal s :: rest => resolveComps (acc ++ [s]) rest
  | .curDir :: rest => resolveComps acc rest
  | .parentDir :: rest =>
    if acc = [] then none else resolveComps acc.dropLast rest
  | .rootDir :: rest => resolveComps [] rest

/-- Boolean test that `root` is an initial segment of `p`. -/
def isUnder (root p : List String) : Bool :=
  match root, p with
  | [], _ => true
  | _ :: _, [] => false
  | r :: rs, x :: xs => r == x && isUnder rs xs

/-- A raw path resolves successfully and lands inside `root`. -/
def staysWithin (root : List String) (p : RPath) : Bool :=
  match resolveComps [] p with
  | some r => isUnder root r
  | none => false

/-- `Path::parent`: `none` at the empty path, otherwise the path minus
its last component. -/
def rpathParent (p : RPath) : Option RPath :=
  if p = [] then none else some p.dropLast

/-- Extraction of one archive entry (loop body, main.rs lines 181-221):
skip the entry when `enclosed_name` rejects it; otherwise create the
directory (directory entries) or the missing parent, the file, and the
copied bytes (file entries); finally apply recorded permission bits. -/
def unzipEntry (fs : FS) (dest : List String) (e : ZipEntry) :
    List Op × Option String :=
  match enclosedName e.comps with
  | none => ([], none)
  | some path =>
    let outpath := strPath dest ++ path
    let main : List Op × Option String :=
      if e.isDir then
        step fs (Op.createDirAll outpath)
      else
        let mkParent : List Op × Option String :=
          match rpathParent outpath with
          | some p =>
            if fs.pathExists p then ([], none)
            else step fs (Op.createDirAll p)
          | none => ([], none)
        seqM mkParent
          (seqM (step fs (Op.createFile outpath))
            (step fs (Op.copyData outpath)))
    let perms : List Op × Option String :=
      match e.unixMode with
      | some mode => step fs (Op.setPerms outpath mode)
      | none => ([], none)
    seqM main perms

/-- The extraction loop over all entries (main.rs lines 180-222): a
failing entry aborts the remaining entries via `?`. -/
def unzipAll (fs : FS) (dest : List String) :
    List ZipEntry → List Op × Option String
  | [] => ([], none)
  | e :: rest => seqM (unzipEntry fs dest e) (unzipAll fs dest rest)

/-! ## Rules, actions and the organiser (main.rs lines 23-51, 96-237) -/

/-- `DuplicateAction` (main.rs lines 43-51). -/
inductive DuplicateAction where
  | renameDate
  | skip
  | overwrite
deriving DecidableEq, Repr

/-- `Action` (main.rs lines 33-41).  The configured destination strings
are embedded as the component lists `PathBuf::join` appends. -/
inductive Action where
  | move (dest : List String) (duplicate : DuplicateAction)
  | unzip (dest : List String)
  | delete
deriving DecidableEq, Repr

/-- A local-time instant, the embedding of `chrono::Local::now()`. -/
structure Timestamp where
  year : Nat
  month : Nat
  day : Nat
  hour : Nat
  minute : Nat
  second : Nat
deriving DecidableEq, Repr

/-- Two-digit zero padding (chrono `%m` `%d` `%H` `%M` `%S`). -/
def pad2 (n : Nat) : String := if n < 10 then "0" ++ toString n else toString n

/-- Four-digit zero padding (chrono `%Y`). -/
def pad4 (n : Nat) : String :=
  if n < 10 then "000" ++ toString n
  else if n < 100 then "00" ++ toString n
  else if n < 1000 then "0" ++ toString n
  else toString n

/-- `Local::now().format("%Y-%m-%dT%H_%M_%S")` (main.rs line 163). -/
def formatTs (t : Timestamp) : String :=
  pad4 t.year ++ "-" ++ pad2 t.month ++ "-" ++ pad2 t.day ++ "T" ++
    pad2 t.hour ++ "_" ++ pad2 t.minute ++ "_" ++ pad2 t.second

/-- `Rule` (main.rs lines 23-31).  The compiled `Regex` is embedded as
its `is_match` behaviour on file names. -/
structure Rule where
  regex : String → Bool
  min_size : Option String
  actions : List Action

/-- `Organiser` (main.rs lines 96-101); the `SizeMatcher` field is the
fixed function `is_gteq`. -/
structure Organiser where
  base_dir : List String
  watch_dir : List String
  rules : List Rule

/-- Execution of one action (the `match action` of main.rs lines
155-227), producing the trace of attempted filesystem operations and
the error that aborted it, if any. -/
def execAction (fs : FS) (org : Organiser) (now : Timestamp)
    (source : RPath) (nm : String) : Action → List Op × Option String
  | .move dest duplicate =>
    let destP := strPath (org.base_dir ++ dest ++ [nm])
    if fs.pathExists destP then
      match duplicate with
      | .skip => ([], none)
      | .overwrite => step fs (Op.rename source destP)
      | .renameDate =>
        let newName := formatTs now ++ "__" ++ nm
        step fs (Op.rename source
          (strPath ((org.base_dir ++ dest ++ [nm]).dropLast ++ [newName])))
    else
      step fs (Op.rename source destP)
  | .unzip dest =>
    match fs.openZip source with
    | none => ([], some "unable to open or parse zip archive")
    | some entries => unzipAll fs (org.base_dir ++ dest) entries
  | .delete => step fs (Op.removeFile source)

/-- The size gate of one candidate rule (main.rs lines 146-152): no
`minSize` passes; otherwise fetch the file's metadata (an error is
propagated) and ask `is_gteq`. -/
def gateResult (fs : FS) (org : Organiser) (nm : String) (rule : Rule) :
    Except String Bool :=
  match rule.min_size with
  | none => Except.ok true
  | some ms =>
    match fs.metadataLen (strPath (org.watch_dir ++ [nm])) with
    | none => Except.error "unable to read file metadata"
    | some len => is_gteq len ms

/-- Per-event outcome: the trace of attempted operations, the actions
whose execution began (the "performing action" log of main.rs line 154),
and the error returned from `process_event`, if any. -/
structure EventResult where
  ops : List Op
  attempted : List Action
  err : Option String
deriving DecidableEq, Repr

/-- The rule loop of `process_event` (main.rs lines 143-234): first rule
whose regex matches and whose gate passes runs; a gate error aborts the
event; a failed gate or a non-matching regex moves on to the next rule.
The inner action loop returns after its first iteration (line 229), so
only the head of the action list ever runs; an empty action list falls
through to the next rule. -/
def processRules (fs : FS) (org : Organiser) (now : Timestamp)
    (nm : String) (source : RPath) : List Rule → EventResult
  | [] => ⟨[], [], none⟩
  | rule :: rest =>
    if rule.regex nm then
      match gateResult fs org nm rule with
      | .error e => ⟨[], [], some e⟩
      | .ok false => processRules fs org now nm source rest
      | .ok true =>
        match rule.actions with
        | [] => processRules fs org now nm source rest
        | a :: _ =>
          let r := execAction fs org now source nm a
          ⟨r.1, [a], r.2⟩
    else
      processRules fs org now nm source rest

/-- The rule-selection scan on its own, for stating which rule the event
loop settles on: the first rule whose regex matches and whose size gate
passes; a gate error aborts; otherwise scanning continues. -/
def selectRule (fs : FS) (org : Organiser) (nm : String) :
    List Rule → Except String (Option Rule)
  | [] => Except.ok none
  | rule :: rest =>
    if rule.regex nm then
      match gateResult fs org nm rule with
      | .error e => Except.error e
      | .ok false => selectRule fs org nm rest
      | .ok true => Except.ok (some rule)
    else
      selectRule fs org nm rest

/-- `EventMask::CLOSE_WRITE` of the inotify crate. -/
def maskCloseWrite : Nat := 8
/-- `EventMask::MOVED_TO` of the inotify crate. -/
def maskMovedTo : Nat := 128

/-- An inotify event as `process_event` receives it: the event-kind mask
and the optional `OsString` file name.  An `OsString` is embedded by the
result of its `to_str()`: `some s` when the bytes are valid UTF-8,
`none` otherwise. -/
structure InEvent where
  mask : Nat
  name : Option (Option String)
deriving DecidableEq, Repr

/-- What one `process_event` call does: return (with its trace and
optional error), or crash the task on a Rust panic. -/
inductive Outcome where
  | ret (r : EventResult)
  | crash (msg : String)
deriving DecidableEq, Repr

/-- `Organiser::process_event` (main.rs lines 124-237): propagate a
stream error; discard events whose mask is neither `CLOSE_WRITE` nor
`MOVED_TO`; discard events without a name; `unwrap` the UTF-8
conversion of the name (a panic on non-UTF-8 names, line 135); discard
events whose source path no longer exists; otherwise run the rule
loop. -/
def processEvent (fs : FS) (org : Organiser) (now : Timestamp)
    (ev : Except String InEvent) : Outcome :=
  match ev with
  | .error e => Outcome.ret ⟨[], [], some e⟩
  | .ok event =>
    if event.mask ≠ maskCloseWrite ∧ event.mask ≠ maskMovedTo then
      Outcome.ret ⟨[], [], none⟩
    else
      match event.name with
      | none => Outcome.ret ⟨[], [], none⟩
      | some none => Outcome.crash "called Option::unwrap on a None value"
      | some (some nm) =>
        let source := strPath (org.watch_dir ++ [nm])
        if fs.pathExists source then
          Outcome.ret (processRules fs org now nm source org.rules)
        else
          Outcome.ret ⟨[], [], none⟩

/-- The event loop of `Organiser::run` (main.rs lines 112-119): each
event's result — success or error — is consumed (errors are logged) and
the loop pulls the next event; a panic tears the loop down. -/
def runEvents (fs : FS) (org : Organiser) (now : Timestamp) :
    List (Except String InEvent) → List EventResult × Option String
  | [] => ([], none)
  | ev :: rest =>
    match processEvent fs org now ev with
    | .crash m => ([], some m)
    | .ret r =>
      let rs := runEvents fs org now rest
      (r :: rs.1, rs.2)

/-! ## Size-matcher theorems -/

/-- `is_gteq` is the strict comparison of the file size against the
threshold that `resolveThreshold` computes: both walk the same parse. -/
theorem is_gteq_eq_resolve (file_size : Nat) (s : String) :
    is_gteq file_size s =
      (resolveThreshold s).map (fun t => decide (t < file_size)) := by
  cases hc : sizeCaptures s with
  | none => simp [is_gteq, resolveThreshold, hc, Except.map]
  | some p =>
    obtain ⟨rawSize, units⟩ := p
    cases hn : parseU64 rawSize with
    | none => simp [is_gteq, resolveThreshold, hc, hn, Except.map]
    | some size =>
      cases hm : unitMultiplier units with
      | none => simp [is_gteq, resolveThreshold, hc, hn, hm, Except.map]
      | some mult => simp [is_gteq, resolveThreshold, hc, hn, hm, Except.map]

/-- C3: for every file size and every parseable threshold string, the
size gate passes if and only if the file size is strictly greater than
the resolved threshold byte count; a file whose size exactly equals the
threshold does not pass. -/
theorem size_gate_strictly_greater (file_size t : Nat) (s : String)
    (h : resolveThreshold s = Except.ok t) :
    (is_gteq file_size s = Except.ok true ↔ t < file_size)
    ∧ is_gteq t s = Except.ok false := by
  have h1 := is_gteq_eq_resolve file_size s
  have h2 := is_gteq_eq_resolve t s
  rw [h] at h1 h2
  refine ⟨?_, ?_⟩
  · rw [h1]
    simp [Except.map]
  · rw [h2]
    simp [Except.map]

/-- Witness for C3 at the threshold string "10k". -/
theorem size_gate_strictly_greater_witness :
    resolveThreshold "10k" = Except.ok 10240
    ∧ ((is_gteq 10241 "10k" = Except.ok true ↔ 10240 < 10241)
        ∧ is_gteq 10240 "10k" = Except.ok false) :=
  ⟨rfl, size_gate_strictly_greater 10241 10240 "10k" rfl⟩

/-- C4 counterexample: "18446744073709551615k" is one or more decimal
digits followed by the recognized suffix "k", yet the resolved byte
count is not the magnitude times the multiplier 1024 — the 64-bit
multiplication wraps. -/
theorem unit_table_resolution_cex :
    sizeCaptures "18446744073709551615k" = some ("18446744073709551615", "k")
    ∧ parseU64 "18446744073709551615" = some 18446744073709551615
    ∧ unitMultiplier "k" = some 1024
    ∧ resolveThreshold "18446744073709551615k" =
        Except.ok 18446744073709550592
    ∧ 18446744073709550592 ≠ 18446744073709551615 * 1024 :=
  ⟨by decide, by decide, by decide, rfl, by decide⟩

/-- C4 (amended): for every threshold string of decimal digits followed
by a recognized unit suffix, the resolved byte count is the magnitude
times the unit multiplier reduced modulo 2^64 — equal to the plain
product whenever that product fits in 64 bits; no suffix or "b" gives
×1, "k"/"kb" gives ×2^10, and "m"/"mb", "g"/"gb", "t"/"tb" all give
×2^20; any unrecognized suffix fails with a parse error identifying the
unknown unit, so "10" resolves to 10, "10k" to 10×1024, "1m" to
1×1024×1024, and "5x" fails naming the unit "x". -/
theorem unit_table_resolution (s d u : String) (n m : Nat)
    (hc : sizeCaptures s = some (d, u)) (hn : parseU64 d = some n)
    (hm : unitMultiplier u = some m) :
    (resolveThreshold s = Except.ok (n * m % u64Mod)
      ∧ (n * m < u64Mod → resolveThreshold s = Except.ok (n * m)))
    ∧ (∀ s2 d2 u2 n2, sizeCaptures s2 = some (d2, u2) →
        parseU64 d2 = some n2 → unitMultiplier u2 = none →
        resolveThreshold s2 =
          Except.error ("unknown unit specification " ++ u2))
    ∧ (unitMultiplier "" = some 1 ∧ unitMultiplier "b" = some 1
      ∧ unitMultiplier "k" = some (2 ^ 10)
      ∧ unitMultiplier "kb" = some (2 ^ 10)
      ∧ unitMultiplier "m" = some (2 ^ 20)
      ∧ unitMultiplier "mb" = some (2 ^ 20)
      ∧ unitMultiplier "g" = some (2 ^ 20)
      ∧ unitMultiplier "gb" = some (2 ^ 20)
      ∧ unitMultiplier "t" = some (2 ^ 20)
      ∧ unitMultiplier "tb" = some (2 ^ 20))
    ∧ (resolveThreshold "10" = Except.ok 10
      ∧ resolveThreshold "10k" = Except.ok 10240
      ∧ resolveThreshold "1m" = Except.ok 1048576
      ∧ is_gteq 0 "5x" = Except.error "unknown unit specification x") := by
  refine ⟨⟨?_, ?_⟩, ?_, ?_, ?_⟩
  · simp [resolveThreshold, hc, hn, hm]
  · intro hfit
    simp [resolveThreshold, hc, hn, hm, Nat.mod_eq_of_lt hfit]
  · intro s2 d2 u2 n2 hc2 hn2 hm2
    simp [resolveThreshold, hc2, hn2, hm2]
  · exact ⟨rfl, rfl, rfl, rfl, rfl, rfl, rfl, rfl, rfl, rfl⟩
  · exact ⟨rfl, rfl, rfl, rfl⟩

/-- Witness for C4 (amended) at the threshold string "10k". -/
theorem unit_table_resolution_witness :
    sizeCaptures "10k" = some ("10", "k")
    ∧ parseU64 "10" = some 10
    ∧ unitMultiplier "k" = some 1024
    ∧ resolveThreshold "10k" = Except.ok (10 * 1024 % u64Mod) :=
  ⟨by decide, by decide, by decide,
    (unit_table_resolution "10k" "10" "k" 10 1024 (by decide) (by decide)
      (by decide)).1.1⟩

/-- C8 counterexample: the claim's own example spelling "kB" is rejected
as an unknown unit rather than resolving like "kb". -/
theorem case_variant_units_cex :
    is_gteq 0 "1kB" = Except.error "unknown unit specification kB" := rfl

/-- C8 (amended): the unit suffix is not accepted case-insensitively;
exactly the spellings listed in the source's match arms are accepted —
for each family the lowercase letter, lowercase letter + "b", the
capitalized pair, and the all-caps pair (plus "b"/"B" alone for bytes).
The mixed-case variant with a capital "B" after a lowercase letter
(e.g. "kB") and the bare capital letter (e.g. "K") are rejected as
unknown units. -/
theorem unit_spellings :
    (resolveThreshold "1" = Except.ok 1
      ∧ resolveThreshold "1b" = Except.ok 1
      ∧ resolveThreshold "1B" = Except.ok 1)
    ∧ (resolveThreshold "1k" = Except.ok 1024
      ∧ resolveThreshold "1kb" = Except.ok 1024
      ∧ resolveThreshold "1Kb" = Except.ok 1024
      ∧ resolveThreshold "1KB" = Except.ok 1024)
    ∧ (resolveThreshold "1m" = Except.ok 1048576
      ∧ resolveThreshold "1mb" = Except.ok 1048576
      ∧ resolveThreshold "1Mb" = Except.ok 1048576
      ∧ resolveThreshold "1MB" = Except.ok 1048576)
    ∧ (resolveThreshold "1g" = Except.ok 1048576
      ∧ resolveThreshold "1gb" = Except.ok 1048576
      ∧ resolveThreshold "1Gb" = Except.ok 1048576
      ∧ resolveThreshold "1GB" = Except.ok 1048576)
    ∧ (resolveThreshold "1t" = Except.ok 1048576
      ∧ resolveThreshold "1tb" = Except.ok 1048576
      ∧ resolveThreshold "1Tb" = Except.ok 1048576
      ∧ resolveThreshold "1TB" = Except.ok 1048576)
    ∧ (resolveThreshold "1kB" =
        Except.error "unknown unit specification kB"
      ∧ resolveThreshold "1mB" =
        Except.error "unknown unit specification mB"
      ∧ resolveThreshold "1gB" =
        Except.error "unknown unit specification gB"
      ∧ resolveThreshold "1tB" =
        Except.error "unknown unit specification tB"
      ∧ resolveThreshold "1K" =
        Except.error "unknown unit specification K"
      ∧ resolveThreshold "1M" =
        Except.error "unknown unit specification M"
      ∧ resolveThreshold "1G" =
        Except.error "unknown unit specification G"
      ∧ resolveThreshold "1T" =
        Except.error "unknown unit specification T") :=
  ⟨⟨rfl, rfl, rfl⟩, ⟨rfl, rfl, rfl, rfl⟩, ⟨rfl, rfl, rfl, rfl⟩,
    ⟨rfl, rfl, rfl, rfl⟩, ⟨rfl, rfl, rfl, rfl⟩,
    ⟨rfl, rfl, rfl, rfl, rfl, rfl, rfl, rfl⟩⟩

/-- C10: when the parsed magnitude and the unit multiplier have a
product of at least 2^64, threshold resolution wraps the 64-bit
multiplication instead of returning a parse error: the gate compares
against the wrapped value, which is not the unit-table product. -/
theorem threshold_overflow_wraps (s d u : String) (n m : Nat)
    (hc : sizeCaptures s = some (d, u)) (hn : parseU64 d = some n)
    (hm : unitMultiplier u = some m) (hov : u64Mod ≤ n * m) :
    (∀ file_size, is_gteq file_size s =
      Except.ok (decide (n * m % u64Mod < file_size)))
    ∧ resolveThreshold s = Except.ok (n * m % u64Mod)
    ∧ n * m % u64Mod ≠ n * m := by
  have hres : resolveThreshold s = Except.ok (n * m % u64Mod) := by
    simp [resolveThreshold, hc, hn, hm]
  refine ⟨?_, hres, ?_⟩
  · intro file_size
    rw [is_gteq_eq_resolve, hres]
    rfl
  · have hlt : n * m % u64Mod < u64Mod :=
      Nat.mod_lt _ (by unfold u64Mod; positivity)
    omega

/-- Witness for C10 at "18446744073709551615k": u64::MAX kibibytes. -/
theorem threshold_overflow_wraps_witness :
    sizeCaptures "18446744073709551615k" = some ("18446744073709551615", "k")
    ∧ u64Mod ≤ 18446744073709551615 * 1024
    ∧ (resolveThreshold "18446744073709551615k" =
        Except.ok (18446744073709551615 * 1024 % u64Mod)
      ∧ 18446744073709551615 * 1024 % u64Mod ≠ 18446744073709551615 * 1024) :=
  ⟨by decide, by decide,
    (threshold_overflow_wraps "18446744073709551615k" "18446744073709551615"
      "k" 18446744073709551615 1024 (by decide) (by decide) (by decide)
      (by decide)).2⟩

/-! ## Archive-extraction theorems -/

/-- A list is under itself extended by anything. -/
theorem isUnder_append (root t : List String) :
    isUnder root (root ++ t) = true := by
  induction root with
  | nil => rfl
  | cons r rs ih => simp [isUnder, ih]

/-- Resolving a path that starts with plain components consumes them
into the accumulator. -/
theorem resolveComps_strPath (l : List String) (acc : List String)
    (rest : RPath) :
    resolveComps acc (strPath l ++ rest) = resolveComps (acc ++ l) rest := by
  induction l generalizing acc with
  | nil => simp [strPath]
  | cons s l' ih =>
    simp only [strPath, List.map_cons, List.cons_append, resolveComps]
    rw [show acc ++ s :: l' = (acc ++ [s]) ++ l' by simp]
    exact ih (acc ++ [s])

/-- The key safety invariant: a component list that passes the
`enclosedCheck` depth test at `depth` resolves, from any accumulator
whose tail beyond `base` is at least `depth` long, to a path that still
extends `base`. -/
theorem resolveComps_enclosed (comps : RPath) :
    ∀ (depth : Nat) (base extra : List String),
      enclosedCheck depth comps = true → depth ≤ extra.length →
      ∃ t, resolveComps (base ++ extra) comps = some (base ++ t) := by
  induction comps with
  | nil => exact fun depth base extra _ _ => ⟨extra, rfl⟩
  | cons c rest ih =>
    intro depth base extra hc hd
    cases c with
    | normal s =>
      rw [resolveComps, show (base ++ extra) ++ [s] = base ++ (extra ++ [s])
        by simp]
      refine ih (depth + 1) base (extra ++ [s]) ?_ (by simp; omega)
      simpa [enclosedCheck] using hc
    | curDir =>
      rw [resolveComps]
      exact ih depth base extra (by simpa [enclosedCheck] using hc) hd
    | parentDir =>
      have hdep : depth ≠ 0 := by
        intro h
        subst h
        simp [enclosedCheck] at hc
      have hrest : enclosedCheck (depth - 1) rest = true := by
        simpa [enclosedCheck, hdep] using hc
      have hex : extra ≠ [] := by
        intro h
        subst h
        simp at hd
        omega
      have hne : base ++ extra ≠ [] := by simp [hex]
      rw [resolveComps, if_neg hne,
        List.dropLast_append_of_ne_nil base hex]
      refine ih (depth - 1) base extra.dropLast hrest ?_
      rw [List.length_dropLast]
      omega
    | rootDir => simp [enclosedCheck] at hc

/-- An `enclosedCheck`-approved entry path, joined onto the destination,
resolves to a path inside the destination. -/
theorem staysWithin_enclosed (dest : List String) (path : RPath)
    (h : enclosedCheck 0 path = true) :
    staysWithin dest (strPath dest ++ path) = true := by
  obtain ⟨t, ht⟩ :=
    resolveComps_enclosed path 0 dest [] h (Nat.le_refl 0)
  rw [List.append_nil] at ht
  unfold staysWithin
  rw [resolveComps_strPath dest [] path, List.nil_append, ht]
  exact isUnder_append dest t

/-- Dropping the last component preserves the `enclosedCheck` test. -/
theorem enclosedCheck_dropLast (comps : RPath) :
    ∀ depth, enclosedCheck depth comps = true →
      enclosedCheck depth comps.dropLast = true := by
  induction comps with
  | nil => exact fun _ h => h
  | cons c rest ih =>
    intro depth h
    cases rest with
    | nil => cases c <;> rfl
    | cons c2 r2 =>
      rw [show (c :: c2 :: r2).dropLast = c :: (c2 :: r2).dropLast from rfl]
      cases c with
      | normal s =>
        rw [enclosedCheck] at h ⊢
        exact ih (depth + 1) h
      | curDir =>
        rw [enclosedCheck] at h ⊢
        exact ih depth h
      | parentDir =>
        rw [enclosedCheck] at h ⊢
        by_cases hz : depth = 0
        · rw [if_pos hz] at h
          exact absurd h (by simp)
        · rw [if_neg hz] at h ⊢
          exact ih (depth - 1) h
      | rootDir =>
        rw [enclosedCheck] at h
        exact absurd h (by simp)

/-- Only the operation itself enters the trace of a `step`. -/
theorem mem_step (fs : FS) (o op : Op) (h : op ∈ (step fs o).1) :
    op = o := by
  simpa [step] using h

/-- An operation in a sequenced trace came from one of the parts. -/
theorem mem_seqM (op : Op) (a b : List Op × Option String)
    (h : op ∈ (seqM a b).1) : op ∈ a.1 ∨ op ∈ b.1 := by
  obtain ⟨ops, e⟩ := a
  cases e with
  | none => simpa [seqM] using h
  | some s =>
    simp only [seqM] at h
    exact Or.inl h

/-- Every operation attempted while extracting a single entry with a
non-empty stored path targets a path that resolves inside the
destination. -/
theorem unzipEntry_ops_within (fs : FS) (dest : List String) (e : ZipEntry)
    (hne : e.comps ≠ []) (op : Op) (hop : op ∈ (unzipEntry fs dest e).1) :
    staysWithin dest (Op.path op) = true := by
  unfold unzipEntry at hop
  cases henc : enclosedName e.comps with
  | none => simp [henc] at hop
  | some path =>
    have hcheck : enclosedCheck 0 e.comps = true ∧ path = e.comps := by
      unfold enclosedName at henc
      by_cases h : enclosedCheck 0 e.comps = true
      · rw [if_pos h] at henc
        exact ⟨h, (Option.some.inj henc).symm⟩
      · rw [if_neg h] at henc
        exact absurd henc (by simp)
    obtain ⟨hchk, hpath⟩ := hcheck
    subst hpath
    rw [henc] at hop
    simp only at hop
    have hout : staysWithin dest (strPath dest ++ e.comps) = true :=
      staysWithin_enclosed dest e.comps hchk
    have houtpar :
        staysWithin dest ((strPath dest ++ e.comps).dropLast) = true := by
      rw [List.dropLast_append_of_ne_nil (strPath dest) hne]
      exact staysWithin_enclosed dest e.comps.dropLast
        (enclosedCheck_dropLast e.comps 0 hchk)
    rcases mem_seqM op _ _ hop with hmain | hperm
    · cases hdir : e.isDir with
      | true =>
        rw [hdir] at hmain
        simp only [if_true] at hmain
        rw [mem_step fs _ op hmain]
        exact hout
      | false =>
        rw [hdir] at hmain
        simp only [Bool.false_eq_true, if_false] at hmain
        rcases mem_seqM op _ _ hmain with hpar | hfile
        · cases hppar : rpathParent (strPath dest ++ e.comps) with
          | none => simp [hppar] at hpar
          | some p =>
            rw [hppar] at hpar
            simp only at hpar
            cases hpc : fs.pathExists p with
            | true => simp [hpc] at hpar
            | false =>
              rw [hpc] at hpar
              simp only [Bool.false_eq_true, if_false] at hpar
              rw [mem_step fs _ op hpar]
              have hpval : p = (strPath dest ++ e.comps).dropLast := by
                unfold rpathParent at hppar
                by_cases hnil : strPath dest ++ e.comps = []
                · rw [if_pos hnil] at hppar
                  exact absurd hppar (by simp)
                · rw [if_neg hnil] at hppar
                  exact (Option.some.inj hppar).symm
              rw [hpval]
              exact houtpar
        · rcases mem_seqM op _ _ hfile with hcr | hcp
          · rw [mem_step fs _ op hcr]
            exact hout
          · rw [mem_step fs _ op hcp]
            exact hout
    · cases hmode : e.unixMode with
      | none => simp [hmode] at hperm
      | some mode =>
        rw [hmode] at hperm
        simp only at hperm
        rw [mem_step fs _ op hperm]
        exact hout

/-- C5: an archive entry whose stored path would resolve outside the
extraction destination is skipped — it contributes no filesystem
operation and no error, and the remaining entries are processed exactly
as if it were absent — and every operation the extraction loop attempts
on entries with non-empty stored paths targets a path that resolves
inside the destination directory. -/
theorem unzip_traversal_safety :
    (∀ (fs : FS) (dest : List String) (e : ZipEntry) (rest : List ZipEntry),
      enclosedName e.comps = none →
      unzipAll fs dest (e :: rest) = unzipAll fs dest rest)
    ∧ (∀ (fs : FS) (dest : List String) (entries : List ZipEntry),
      (∀ e ∈ entries, e.comps ≠ []) →
      ∀ op ∈ (unzipAll fs dest entries).1,
        staysWithin dest (Op.path op) = true) := by
  constructor
  · intro fs dest e rest henc
    rw [unzipAll, unzipEntry, henc]
    simp [seqM]
  · intro fs dest entries
    induction entries with
    | nil => intro _ op hop; simp [unzipAll] at hop
    | cons e rest ih =>
      intro hne op hop
      rw [unzipAll] at hop
      rcases mem_seqM op _ _ hop with h1 | h2
      · exact unzipEntry_ops_within fs dest e (hne e (by simp)) op h1
      · exact ih (fun e2 he2 => hne e2 (by simp [he2])) op h2

/-- Witness for C5: a traversal entry `../evil` is skipped with the loop
continuing, and a concrete benign extraction's operations all stay
inside the destination. -/
theorem unzip_traversal_safety_witness :
    enclosedName [PathComp.parentDir, PathComp.normal "evil"] = none
    ∧ unzipAll
        ⟨fun _ => true, fun _ => some 0, fun _ => none, fun _ => true⟩
        ["base", "out"]
        [⟨[PathComp.parentDir, PathComp.normal "evil"], false, none⟩] =
      ([], none)
    ∧ staysWithin ["base", "out"]
        (Op.path (Op.createFile
          (strPath ["base", "out"] ++ [PathComp.normal "a.txt"]))) = true :=
  ⟨rfl,
    (unzip_traversal_safety.1
      ⟨fun _ => true, fun _ => some 0, fun _ => none, fun _ => true⟩
      ["base", "out"]
      ⟨[PathComp.parentDir, PathComp.normal "evil"], false, none⟩ [] rfl).trans
      rfl,
    unzip_traversal_safety.2
      ⟨fun _ => true, fun _ => some 0, fun _ => none, fun _ => true⟩
      ["base", "out"] [⟨[PathComp.normal "a.txt"], false, none⟩]
      (by simp)
      (Op.createFile (strPath ["base", "out"] ++ [PathComp.normal "a.txt"]))
      (by decide)⟩

/-! ## Organiser theorems -/

/-- Fixture: filesystem on which every query succeeds (size 0, no
archive, all operations succeed). -/
def fsOk : FS := ⟨fun _ => true, fun _ => some 0, fun _ => none, fun _ => true⟩

/-- Fixture: filesystem on which every effectful operation fails. -/
def fsFailOps : FS :=
  ⟨fun _ => true, fun _ => some 0, fun _ => none, fun _ => false⟩

/-- Fixture: a rule matching every name, no size gate, one delete. -/
def ruleDel : Rule := ⟨fun _ => true, none, [Action.delete]⟩

/-- Fixture: a rule matching every name, gated at one kibibyte. -/
def ruleMin : Rule := ⟨fun _ => true, some "1k", [Action.delete]⟩

/-- Fixture: an organiser over `base` watching `base/watch`. -/
def orgW (rules : List Rule) : Organiser := ⟨["base"], ["base", "watch"], rules⟩

/-- Fixture: a clock instant. -/
def ts0 : Timestamp := ⟨2024, 1, 2, 3, 4, 5⟩

/-- C6: for a Move action with the RenameDate duplicate strategy, when
the computed target `base_dir/dest/file_name` already exists, the only
attempted operation is a rename of the source into the target's parent
directory under the name `{timestamp}__{original_file_name}`, the
timestamp being the local time formatted `YYYY-MM-DDTHH_MM_SS`; the
rename's destination differs from the existing target, which no
operation touches. -/
theorem move_rename_date (fs : FS) (org : Organiser) (now : Timestamp)
    (source : RPath) (nm : String) (dest : List String)
    (hex : fs.pathExists (strPath (org.base_dir ++ dest ++ [nm])) = true) :
    (execAction fs org now source nm
        (Action.move dest DuplicateAction.renameDate)).1
      = [Op.rename source
          (strPath (org.base_dir ++ dest ++ [formatTs now ++ "__" ++ nm]))]
    ∧ strPath (org.base_dir ++ dest ++ [formatTs now ++ "__" ++ nm])
        ≠ strPath (org.base_dir ++ dest ++ [nm])
    ∧ formatTs ⟨2024, 3, 7, 9, 5, 30⟩ = "2024-03-07T09_05_30" := by
  refine ⟨?_, ?_, rfl⟩
  · simp only [execAction, hex, if_true, List.dropLast_concat, step]
  · intro h
    have hinj : Function.Injective PathComp.normal := by
      intro a b hab
      cases hab
      rfl
    have h1 : org.base_dir ++ dest ++ [formatTs now ++ "__" ++ nm] =
        org.base_dir ++ dest ++ [nm] :=
      List.map_injective_iff.mpr hinj h
    have h2 : formatTs now ++ "__" ++ nm = nm := by
      have h3 := List.append_cancel_left h1
      simpa using h3
    have h4 : (formatTs now ++ "__" ++ nm).length = nm.length := by rw [h2]
    rw [String.length_append, String.length_append] at h4
    have h5 : ("__" : String).length = 2 := rfl
    omega

/-- Witness for C6 at a concrete filesystem and clock. -/
theorem move_rename_date_witness :
    fsOk.pathExists (strPath (["base"] ++ ["dst"] ++ ["f.txt"])) = true
    ∧ (execAction fsOk (orgW []) ts0 (strPath ["base", "watch", "f.txt"])
        "f.txt" (Action.move ["dst"] DuplicateAction.renameDate)).1
      = [Op.rename (strPath ["base", "watch", "f.txt"])
          (strPath (["base"] ++ ["dst"] ++
            [formatTs ts0 ++ "__" ++ "f.txt"]))]
    ∧ formatTs ts0 ++ "__" ++ "f.txt" = "2024-01-02T03_04_05__f.txt" :=
  ⟨rfl,
    (move_rename_date fsOk (orgW []) ts0 (strPath ["base", "watch", "f.txt"])
      "f.txt" ["dst"] rfl).1,
    rfl⟩

/-- C9: an event carrying a file name whose bytes are not valid UTF-8
makes `process_event` panic at the `unwrap` of the name conversion —
it is neither discarded nor turned into a recoverable per-event error —
while an event with no file name at all is discarded successfully. -/
theorem non_utf8_name_panics (fs : FS) (org : Organiser) (now : Timestamp)
    (mask : Nat) (hmask : mask = maskCloseWrite ∨ mask = maskMovedTo) :
    processEvent fs org now (Except.ok ⟨mask, some none⟩) =
      Outcome.crash "called Option::unwrap on a None value"
    ∧ processEvent fs org now (Except.ok ⟨mask, none⟩) =
      Outcome.ret ⟨[], [], none⟩ := by
  rcases hmask with h | h <;> subst h <;>
    exact ⟨by simp [processEvent, maskCloseWrite, maskMovedTo],
      by simp [processEvent, maskCloseWrite, maskMovedTo]⟩

/-- Witness for C9 at the `CLOSE_WRITE` mask. -/
theorem non_utf8_name_panics_witness :
    processEvent fsOk (orgW [ruleDel]) ts0
        (Except.ok ⟨maskCloseWrite, some none⟩) =
      Outcome.crash "called Option::unwrap on a None value"
    ∧ processEvent fsOk (orgW [ruleDel]) ts0
        (Except.ok ⟨maskCloseWrite, none⟩) =
      Outcome.ret ⟨[], [], none⟩ :=
  non_utf8_name_panics fsOk (orgW [ruleDel]) ts0 maskCloseWrite (Or.inl rfl)

/-- C7: whatever `process_event` returns for an event — success or
error — the loop of `run` records that result, keeps the operations the
event performed before failing (no rollback), and processes the
remaining events exactly as before; only a panic tears the loop down. -/
theorem per_event_failures_recoverable (fs : FS) (org : Organiser)
    (now : Timestamp) (ev : Except String InEvent)
    (rest : List (Except String InEvent)) (r : EventResult)
    (h : processEvent fs org now ev = Outcome.ret r) :
    runEvents fs org now (ev :: rest) =
      (r :: (runEvents fs org now rest).1, (runEvents fs org now rest).2) := by
  simp [runEvents, h]

/-- Witness for C7: a failing delete (an I/O error inside the event) is
recorded — trace and error both kept — and the loop goes on. -/
theorem per_event_failures_recoverable_witness :
    processEvent fsFailOps (orgW [ruleDel]) ts0
        (Except.ok ⟨maskCloseWrite, some (some "f")⟩) =
      Outcome.ret ⟨[Op.removeFile (strPath ["base", "watch", "f"])],
        [Action.delete], some "io error"⟩
    ∧ runEvents fsFailOps (orgW [ruleDel]) ts0
        [Except.ok ⟨maskCloseWrite, some (some "f")⟩] =
      ([⟨[Op.removeFile (strPath ["base", "watch", "f"])],
        [Action.delete], some "io error"⟩], none) :=
  ⟨rfl,
    per_event_failures_recoverable fsFailOps (orgW [ruleDel]) ts0
      (Except.ok ⟨maskCloseWrite, some (some "f")⟩) []
      ⟨[Op.removeFile (strPath ["base", "watch", "f"])],
        [Action.delete], some "io error"⟩ rfl⟩

/-- The rule loop executes exactly the head action of the rule the
selection scan settles on: its trace, its attempted-action list `[a]`,
and its error are the whole result. -/
theorem processRules_first_selected (fs : FS) (org : Organiser)
    (now : Timestamp) (nm : String) (source : RPath) (rule : Rule)
    (a : Action) (acts : List Action) (rules : List Rule)
    (hsel : selectRule fs org nm rules = Except.ok (some rule))
    (hact : rule.actions = a :: acts) :
    processRules fs org now nm source rules =
      ⟨(execAction fs org now source nm a).1, [a],
       (execAction fs org now source nm a).2⟩ := by
  induction rules with
  | nil => simp [selectRule] at hsel
  | cons r rest ih =>
    cases hr : r.regex nm with
    | false =>
      rw [selectRule, hr] at hsel
      simp only [Bool.false_eq_true, if_false] at hsel
      rw [processRules, hr]
      simp only [Bool.false_eq_true, if_false]
      exact ih hsel
    | true =>
      cases hg : gateResult fs org nm r with
      | error e =>
        rw [selectRule, hr] at hsel
        simp only [if_true, hg] at hsel
        exact absurd hsel (by simp)
      | ok b =>
        cases b with
        | false =>
          rw [selectRule, hr] at hsel
          simp only [if_true, hg] at hsel
          rw [processRules, hr]
          simp only [if_true, hg]
          exact ih hsel
        | true =>
          rw [selectRule, hr] at hsel
          simp only [if_true, hg] at hsel
          have hrr : r = rule := by simpa using hsel
          subst hrr
          rw [processRules, hr]
          simp only [if_true, hg, hact]

/-- C1: for every file-change notification that matches some rule, the
event's whole result is the execution of exactly one action — the head
of the action list of the rule the selection scan settles on (the first
eligible rule in declaration order); later actions of that rule and
later rules contribute nothing. -/
theorem first_rule_first_action (fs : FS) (org : Organiser)
    (now : Timestamp) (mask : Nat) (nm : String) (rule : Rule)
    (a : Action) (acts : List Action)
    (hmask : mask = maskCloseWrite ∨ mask = maskMovedTo)
    (hex : fs.pathExists (strPath (org.watch_dir ++ [nm])) = true)
    (hsel : selectRule fs org nm org.rules = Except.ok (some rule))
    (hact : rule.actions = a :: acts) :
    processEvent fs org now (Except.ok ⟨mask, some (some nm)⟩) =
      Outcome.ret
        ⟨(execAction fs org now (strPath (org.watch_dir ++ [nm])) nm a).1,
         [a],
         (execAction fs org now (strPath (org.watch_dir ++ [nm])) nm a).2⟩ := by
  have hmain := processRules_first_selected fs org now nm
    (strPath (org.watch_dir ++ [nm])) rule a acts org.rules hsel hact
  rcases hmask with h | h <;> subst h <;>
    simp [processEvent, maskCloseWrite, maskMovedTo, hex, hmain]

/-- Witness for C1: two rules both match; only the first one's single
delete runs. -/
theorem first_rule_first_action_witness :
    selectRule fsOk (orgW [ruleDel, ruleDel]) "f"
        (orgW [ruleDel, ruleDel]).rules = Except.ok (some ruleDel)
    ∧ processEvent fsOk (orgW [ruleDel, ruleDel]) ts0
        (Except.ok ⟨maskCloseWrite, some (some "f")⟩) =
      Outcome.ret ⟨[Op.removeFile (strPath ["base", "watch", "f"])],
        [Action.delete], none⟩ :=
  ⟨rfl,
    first_rule_first_action fsOk (orgW [ruleDel, ruleDel]) ts0
      maskCloseWrite "f" ruleDel Action.delete [] (Or.inl rfl) rfl rfl rfl⟩

/-- C2: rule matching walks the list in declaration order: a rule whose
regex does not match is passed over; a rule whose size gate comes back
false is passed over and matching continues with the next rule rather
than aborting; the first rule whose regex matches and whose gate passes
is selected no matter what follows it, and the rule loop then executes
exactly that rule's first action. -/
theorem rule_order_first_eligible (fs : FS) (org : Organiser)
    (now : Timestamp) (nm : String) (source : RPath) (rule : Rule)
    (rest : List Rule) :
    (rule.regex nm = false →
      selectRule fs org nm (rule :: rest) = selectRule fs org nm rest)
    ∧ (rule.regex nm = true → gateResult fs org nm rule = Except.ok false →
      selectRule fs org nm (rule :: rest) = selectRule fs org nm rest)
    ∧ (rule.regex nm = true → gateResult fs org nm rule = Except.ok true →
      selectRule fs org nm (rule :: rest) = Except.ok (some rule))
    ∧ (∀ a acts, rule.regex nm = true →
      gateResult fs org nm rule = Except.ok true →
      rule.actions = a :: acts →
      processRules fs org now nm source (rule :: rest) =
        ⟨(execAction fs org now source nm a).1, [a],
         (execAction fs org now source nm a).2⟩) := by
  refine ⟨?_, ?_, ?_, ?_⟩
  · intro hr
    simp [selectRule, hr]
  · intro hr hg
    simp [selectRule, hr, hg]
  · intro hr hg
    simp [selectRule, hr, hg]
  · intro a acts hr hg hact
    simp [processRules, hr, hg, hact]

/-- Witness for C2: a size-gated rule is passed over for the next rule,
and with two matching rules the earlier one's first action executes. -/
theorem rule_order_first_eligible_witness :
    gateResult fsOk (orgW [ruleMin, ruleDel]) "f" ruleMin = Except.ok false
    ∧ selectRule fsOk (orgW [ruleMin, ruleDel]) "f" [ruleMin, ruleDel] =
      Except.ok (some ruleDel)
    ∧ processRules fsOk (orgW [ruleDel, ruleDel]) ts0 "f"
        (strPath ["base", "watch", "f"]) [ruleDel, ruleDel] =
      ⟨[Op.removeFile (strPath ["base", "watch", "f"])],
        [Action.delete], none⟩ :=
  ⟨rfl,
    ((rule_order_first_eligible fsOk (orgW [ruleMin, ruleDel]) ts0 "f"
      (strPath ["base", "watch", "f"]) ruleMin [ruleDel]).2.1 rfl rfl).trans
      rfl,
    (rule_order_first_eligible fsOk (orgW [ruleDel, ruleDel]) ts0 "f"
      (strPath ["base", "watch", "f"]) ruleDel [ruleDel]).2.2.2
      Action.delete [] rfl rfl rfl⟩

end DownloadOrganiser
